import Mathlib
/-!
Verification of the GoBattleSim `interface.py` module (GameMaster ingestion,
CP formula and level/IV inference, entity search, and creature stat
derivation), shallowly embedded in Lean.

Numbers: Python floats are modelled by exact arithmetic — level multipliers
(CPM values) are rationals, the half-level interpolation table (which takes
real square roots) lives in the reals.  Python `int(x)` on a nonnegative
value is the floor; `x ** 0.5` is the real square root.  The combat-power
function is implemented with an exact integer square root on a
cross-multiplied radicand; the theorem for claim C2 proves it equal to the
real-number formula of the source for every nonnegative multiplier.

Strings: Python `.lower()` and `.strip()` are modelled ASCII-faithfully by
total functions on the underlying character list, so that they evaluate
inside the kernel.
-/
/-! ## Python string primitives -/
/-- Python `str.lower` on one ASCII character. -/
def pyLowerChar (c : Char) : Char :=
  if c.isUpper then Char.ofNat (c.toNat + 32) else c
/-- Python `str.lower` (ASCII range). -/
def pyLower (s : String) : String :=
  ⟨s.data.map pyLowerChar⟩
/-- Python `str.strip`: drop whitespace from both ends. -/
def pyStrip (s : String) : String :=
  ⟨((s.data.dropWhile Char.isWhitespace).reverse.dropWhile Char.isWhitespace).reverse⟩
/-! ## Python numeric primitives -/
/-- Python `round` on a rational: nearest integer, ties to even. -/
def pyRound (q : ℚ) : ℤ :=
  let f := ⌊q⌋
  let r := q - f
  if r < 1 / 2 then f
  else if 1 / 2 < r then f + 1
  else if f % 2 = 0 then f else f + 1
/-- Python `int()` on a rational: truncation toward zero. -/
def pyInt (q : ℚ) : ℤ :=
  q.num / (q.den : ℤ)
/-! ## Kernel-evaluable integer square root

The digit-by-digit (base 4) integer square root, written with explicit
structural fuel so that the kernel can evaluate it on concrete inputs; it
is proved to coincide with the mathematical floor of the square root. -/
def isqrtAux : ℕ → ℕ → ℕ
  | 0, _ => 0
  | fuel + 1, n =>
    if n < 2 then n
    else
      let s := 2 * isqrtAux fuel (n / 4)
      if n < (s + 1) * (s + 1) then s else s + 1
/-- Integer square root (floor of the real square root). -/
def isqrt (n : ℕ) : ℕ := isqrtAux n n
/-! ## IPokemon.calc_cp

Source (`interface.py`):
  Atk = (bAtk + atkiv) * cpm
  Def = (bDef + defiv) * cpm
  Stm = (bStm + stmiv) * cpm
  return max(10, int( Atk * (Def * Stm)**0.5 / 10 ))

With cpm = n / d >= 0 the value Atk * sqrt(Def * Stm) / 10 equals
sqrt((bAtk+atkiv)^2 * (bDef+defiv) * (bStm+stmiv) * n^4 * d^4) / (10 * d^4),
so its floor is computed exactly by `Nat.sqrt` on that radicand.
Claim C2's theorem proves this equal to the floor of the real formula. -/
namespace IPokemon
/-- The natural-number radicand of the CP formula after clearing the
rational denominator of the multiplier. -/
def cpRadicand (bAtk bDef bStm : ℕ) (cpm : ℚ) (atkiv defiv stmiv : ℕ) : ℕ :=
  (bAtk + atkiv) ^ 2 * ((bDef + defiv) * (bStm + stmiv)) *
    (cpm.num.natAbs ^ 4 * cpm.den ^ 4)
/-- Floor of Atk * sqrt(Def * Stm) / 10, computed exactly. -/
def cpCore (bAtk bDef bStm : ℕ) (cpm : ℚ) (atkiv defiv stmiv : ℕ) : ℕ :=
  isqrt (cpRadicand bAtk bDef bStm cpm atkiv defiv stmiv) / (10 * cpm.den ^ 4)
/-- IPokemon.calc_cp. -/
def calc_cp (bAtk bDef bStm : ℕ) (cpm : ℚ) (atkiv defiv stmiv : ℕ) : ℕ :=
  max 10 (cpCore bAtk bDef bStm cpm atkiv defiv stmiv)
/-- The exact rational whose square root (divided by 10) underlies the CP
formula: ((bAtk+atkiv) * cpm)^2 * ((bDef+defiv) * cpm) * ((bStm+stmiv) * cpm). -/
def cpQuartic (bAtk bDef bStm : ℕ) (cpm : ℚ) (atkiv defiv stmiv : ℕ) : ℚ :=
  ((bAtk + atkiv : ℕ) : ℚ) ^ 2 *
    (((bDef + defiv : ℕ) : ℚ) * ((bStm + stmiv : ℕ) : ℚ)) * cpm ^ 4
/-! ## IPokemon.infer_level_and_IVs

Source (`interface.py`):
  two bracketing loops narrow the index span of the multiplier table, then
  an exhaustive scan over the span and the 16 x 16 x 16 IV cube returns the
  first exact CP match, else the best strictly-below-target candidate,
  else None.  The two while loops are modelled by List.findIdx (upward
  scan, stops at the first index whose max-IV CP exceeds the target, else
  the length) and by maxLoop (downward scan from length-1, stops at the
  first index whose min-IV CP is below the target, else 0); the nested for
  loops with early return are modelled by a single scan over the
  lexicographically ordered combination list. -/
/-- CP of one (cpm, atkiv, defiv, stmiv) combination. -/
def cpOf (bAtk bDef bStm : ℕ) (x : ℚ × ℕ × ℕ × ℕ) : ℕ :=
  calc_cp bAtk bDef bStm x.1 x.2.1 x.2.2.1 x.2.2.2
/-- The downward while loop: starting at index j, decrement while the
predicate is false, never moving below 0; f is never evaluated at 0. -/
def maxLoop (f : ℕ → Bool) : ℕ → ℕ
  | 0 => 0
  | j + 1 => if f (j + 1) then j + 1 else maxLoop f j
/-- All IV combinations 0..15 x 0..15 x 0..15 for one multiplier, in
enumeration order of the source's nested for loops. -/
def ivSpace (cpm : ℚ) : List (ℚ × ℕ × ℕ × ℕ) :=
  (List.range 16).flatMap fun atkiv =>
    (List.range 16).flatMap fun defiv =>
      (List.range 16).map fun stmiv => (cpm, atkiv, defiv, stmiv)
/-- The exhaustive scan: first exact match wins immediately; otherwise the
best-below-target candidate (strict improvement only) is tracked. -/
def scanCombos (bAtk bDef bStm target : ℕ) :
    List (ℚ × ℕ × ℕ × ℕ) → ℕ → Option (ℚ × ℕ × ℕ × ℕ) → Option (ℚ × ℕ × ℕ × ℕ)
  | [], _, closest => closest
  | x :: rest, closest_cp, closest =>
    if cpOf bAtk bDef bStm x = target then some x
    else if closest_cp < cpOf bAtk bDef bStm x ∧ cpOf bAtk bDef bStm x < target then
      scanCombos bAtk bDef bStm target rest (cpOf bAtk bDef bStm x) (some x)
    else scanCombos bAtk bDef bStm target rest closest_cp closest
/-- IPokemon.infer_level_and_IVs. -/
def infer_level_and_IVs (CPMultipliers : List ℚ) (bAtk bDef bStm target : ℕ) :
    Option (ℚ × ℕ × ℕ × ℕ) :=
  let min_cpm_i := CPMultipliers.findIdx fun c =>
    target < calc_cp bAtk bDef bStm c 15 15 15
  let max_cpm_i := maxLoop (fun j =>
    calc_cp bAtk bDef bStm (CPMultipliers.getD j 0) 0 0 0 < target)
    (CPMultipliers.length - 1)
  let combos := ((CPMultipliers.drop min_cpm_i).take (max_cpm_i + 1 - min_cpm_i)).flatMap ivSpace
  scanCombos bAtk bDef bStm target combos 0 none
end IPokemon
namespace GameMaster
/-! ## GameMaster.feed, CP multiplier ingestion

Source (`interface.py`), PLAYER_LEVEL_SETTINGS branch:
  for cpm in template["playerLevel"]["cpMultiplier"]:
      if self.CPMultipliers:
          self.CPMultipliers.append(((cpm**2 + self.CPMultipliers[-1]**2)/2)**0.5)
      self.CPMultipliers.append(cpm)

The multipliers are real numbers (the interpolated half levels are square
roots), so this table lives in the reals. -/
/-- The CPMultipliers accumulation loop of GameMaster.feed. -/
noncomputable def feedCPMs (acc : List ℝ) : List ℝ → List ℝ
  | [] => acc
  | cpm :: rest =>
    if acc.isEmpty then feedCPMs (acc ++ [cpm]) rest
    else feedCPMs
      (acc ++ [Real.sqrt ((cpm ^ 2 + (acc.getLastD 0) ^ 2) / 2), cpm]) rest
/-- Closed form of the loop: the interleaved half-level/full-level chain
grown from a previous full-level value. -/
noncomputable def chainFrom (prev : ℝ) : List ℝ → List ℝ
  | [] => []
  | c :: rest => Real.sqrt ((c ^ 2 + prev ^ 2) / 2) :: c :: chainFrom c rest
end GameMaster
/-! ## GameMaster._search and the table lookups -/
/-- One entity of a GameMaster table: a name plus an opaque payload
standing for the remaining dictionary fields. -/
structure GMEntity where
  name : String
  payload : ℕ
deriving DecidableEq
/-- The search criteria of GameMaster._search: a literal name or an
arbitrary predicate. -/
inductive Criteria where
  | byName (s : String)
  | byPred (p : GMEntity → Bool)
/-- The callback built by GameMaster._search from the criteria:
  cbfn = lambda x: x["name"].strip().lower() == criteria.strip().lower()
for a string criteria, the callback itself otherwise. -/
def criteriaFn : Criteria → GMEntity → Bool
  | .byName s, x => pyLower (pyStrip x.name) == pyLower (pyStrip s)
  | .byPred p, x => p x
/-- Error kinds raised by the interface module. -/
inductive GMError where
  | notFound (desc : String)
  | indexError
  | keyError
  | typeError
deriving DecidableEq
/-- Result of GameMaster._search: a single entity in first-match mode, an
ordered list in all-matches mode. -/
inductive SearchResult where
  | one (x : GMEntity)
  | many (xs : List GMEntity)
deriving DecidableEq
namespace GameMaster
/-- The loop of GameMaster._search, carrying the accumulated results. -/
def searchGo (cbfn : GMEntity → Bool) (all : Bool) (results : List GMEntity) :
    List GMEntity → Except GMError SearchResult
  | [] => if all then .ok (.many results) else .error (.notFound "Entity not found")
  | e :: rest =>
    if cbfn e then
      if all then searchGo cbfn all (results ++ [e]) rest
      else .ok (.one e)
    else searchGo cbfn all results rest
/-- GameMaster._search. -/
def search (_universe : List GMEntity) (criteria : Criteria) (all : Bool) :
    Except GMError SearchResult :=
  searchGo (criteriaFn criteria) all [] _universe
end GameMaster
/-! ## Weather, friendship, raid tiers, and the creature stat derivation -/
/-- One entry of GameMaster.WeatherSettings. -/
structure WeatherSetting where
  name : String
  boostedTypes : List String
deriving DecidableEq
/-- One entry of GameMaster.FriendAttackBonusMultipliers. -/
structure FriendSetting where
  name : String
  multiplier : ℚ
deriving DecidableEq, Inhabited
/-- One entry of the hardcoded RaidTierSettings table. -/
structure RaidTier where
  name : String
  cpm : ℚ
  maxHP : ℕ
  timelimit : ℕ
deriving DecidableEq
namespace GameMaster
/-- The loop of GameMaster.search_weather: first case-insensitive name
match wins, returning its index; -1 when nothing matches. -/
def search_weatherGo (weather_name : String) : ℕ → List WeatherSetting → ℤ
  | _, [] => -1
  | i, w :: rest =>
    if pyLower w.name == pyLower weather_name then (i : ℤ)
    else search_weatherGo weather_name (i + 1) rest
/-- GameMaster.search_weather. -/
def search_weather (WeatherSettings : List WeatherSetting) (weather_name : String) : ℤ :=
  search_weatherGo weather_name 0 WeatherSettings
/-- The final pass of GameMaster.feed over friendship templates:
  self.FriendAttackBonusMultipliers.sort(key=lambda x: x["multiplier"])
modelled by a stable merge sort on the multiplier key. -/
def sortFriends (l : List FriendSetting) : List FriendSetting :=
  l.mergeSort fun a b => a.multiplier ≤ b.multiplier
/-- The alternate tier names of GameMaster.search_friend. -/
def alter_names : List String := ["none", "good", "great", "ultra", "best"]
/-- The loop of GameMaster.search_friend: at rank i the query matches
either the string of i or alter_names[i]; indexing alter_names out of
range raises (IndexError), exactly as the source would. -/
def search_friendGo (friendship : String) : ℕ → List FriendSetting → Except GMError ℚ
  | _, [] => .error (.notFound "Friend not found")
  | i, fs :: rest =>
    if friendship == toString i then .ok fs.multiplier
    else if h : i < alter_names.length then
      if friendship == alter_names.get ⟨i, h⟩ then .ok fs.multiplier
      else search_friendGo friendship (i + 1) rest
    else .error .indexError
/-- GameMaster.search_friend (the query is normalised with str, strip and
lower first; the str conversion is modelled by taking a string input). -/
def search_friend (FriendAttackBonusMultipliers : List FriendSetting)
    (friendship : String) : Except GMError ℚ :=
  search_friendGo (pyLower (pyStrip friendship)) 0 FriendAttackBonusMultipliers
/-- The hardcoded raid tier table of GameMaster.search_raid_tier. -/
def RaidTierSettings : List RaidTier :=
  [⟨"1", 6 / 10, 600, 180000⟩,
   ⟨"2", 67 / 100, 1800, 180000⟩,
   ⟨"3", 7300000190734863 / 10000000000000000, 3600, 180000⟩,
   ⟨"4", 7900000214576721 / 10000000000000000, 9000, 180000⟩,
   ⟨"5", 7900000214576721 / 10000000000000000, 15000, 300000⟩,
   ⟨"6", 7900000214576721 / 10000000000000000, 18750, 3000000⟩]
/-- The loop of GameMaster.search_raid_tier. -/
def search_raid_tierGo (tier : String) : List RaidTier → Except GMError RaidTier
  | [] => .error (.notFound "Tier not found")
  | rt :: rest => if rt.name == tier then .ok rt else search_raid_tierGo tier rest
/-- GameMaster.search_raid_tier. -/
def search_raid_tier (tier : String) : Except GMError RaidTier :=
  search_raid_tierGo tier RaidTierSettings
/-- Python list indexing (negative indices count from the end, out of
range raises IndexError). -/
def pyListGet (l : List ℚ) (idx : ℤ) : Except GMError ℚ :=
  if 0 ≤ idx then
    if h : idx.toNat < l.length then .ok (l.get ⟨idx.toNat, h⟩)
    else .error .indexError
  else
    if h : 0 ≤ idx + l.length ∧ (idx + l.length).toNat < l.length then
      .ok (l.get ⟨(idx + l.length).toNat, h.2⟩)
    else .error .indexError
/-- GameMaster.search_cpm: index round(2 * level - 2) of the multiplier
table. -/
def search_cpm (CPMultipliers : List ℚ) (level : ℚ) : Except GMError ℚ :=
  pyListGet CPMultipliers (pyRound (2 * level - 2))
end GameMaster
def ROLE_PVE_ATTACKER : String := "ae"
def ROLE_PVP_ATTACKER : String := "ap"
def ROLE_GYM_DEFENDER : String := "gd"
def ROLE_RAID_BOSS : String := "rb"
/-- The stat-relevant fields of an IPokemon keyword request: role, raid
tier, target CP, level and the three IVs (none = key absent). -/
structure PokemonRequest where
  role : Option String
  tier : Option String
  cp : Option ℕ
  level : Option ℚ
  atkiv : Option ℕ
  defiv : Option ℕ
  stmiv : Option ℕ
/-- The derived stat targets of IPokemon.__init__ (the poketype fields are
copied verbatim from the species record and carry no logic). -/
structure PokemonTargets where
  attack : ℚ
  defense : ℚ
  max_hp : ℤ
deriving DecidableEq
namespace IPokemon
/-- The stat-derivation block of IPokemon.__init__: raid-boss rule when
the role is raid boss or a tier key is present (a missing tier key then
raises KeyError); otherwise level/IV stats, either inferred from a target
CP (unpacking a failed inference raises TypeError) or taken from explicit
level and IVs with defaults 40 and 15/15/15; gym defenders double the
final max health. -/
def derive_targets (CPMultipliers : List ℚ) (bAtk bDef bStm : ℕ)
    (req : PokemonRequest) : Except GMError PokemonTargets :=
  let role := req.role.getD ROLE_PVE_ATTACKER
  if role == ROLE_RAID_BOSS || req.tier.isSome then
    match req.tier with
    | none => .error .keyError
    | some tier =>
      match GameMaster.search_raid_tier tier with
      | .error e => .error e
      | .ok tier_setting =>
        .ok ⟨((bAtk + 15 : ℕ) : ℚ) * tier_setting.cpm,
             ((bDef + 15 : ℕ) : ℚ) * tier_setting.cpm,
             (tier_setting.maxHP : ℤ)⟩
  else
    match (match req.cp with
           | some cp =>
             match infer_level_and_IVs CPMultipliers bAtk bDef bStm cp with
             | none => Except.error GMError.typeError
             | some x => Except.ok x
           | none =>
             match GameMaster.search_cpm CPMultipliers (req.level.getD 40) with
             | .error e => Except.error e
             | .ok cpm =>
               Except.ok (cpm, req.atkiv.getD 15, req.defiv.getD 15, req.stmiv.getD 15)) with
    | .error e => .error e
    | .ok (cpm, atkiv, defiv, stmiv) =>
      .ok ⟨((bAtk + atkiv : ℕ) : ℚ) * cpm,
           ((bDef + defiv : ℕ) : ℚ) * cpm,
           if role == ROLE_GYM_DEFENDER then
             2 * pyInt (((bStm + stmiv : ℕ) : ℚ) * cpm)
           else pyInt (((bStm + stmiv : ℕ) : ℚ) * cpm)⟩
end IPokemon
/-- A concrete five-entry friendship source list, in unsorted order, used
by the C8 witness. -/
def friendSrcW : List FriendSetting :=
  [⟨"FRIENDSHIP_LEVEL_2", 6 / 5⟩, ⟨"FRIENDSHIP_LEVEL_0", 1⟩,
   ⟨"FRIENDSHIP_LEVEL_1", 11 / 10⟩, ⟨"FRIENDSHIP_LEVEL_4", 2⟩,
   ⟨"FRIENDSHIP_LEVEL_3", 3 / 2⟩]

/-! ## Lemmas -/
lemma isqrtAux_spec : ∀ (fuel n : ℕ), n ≤ fuel →
    isqrtAux fuel n * isqrtAux fuel n ≤ n ∧
      n < (isqrtAux fuel n + 1) * (isqrtAux fuel n + 1)
  | 0, n, h => by
    interval_cases n
    simp [isqrtAux]
  | fuel + 1, n, h => by
    unfold isqrtAux
    split
    · rename_i h2
      interval_cases n <;> simp
    · rename_i h2
      push_neg at h2
      have hrec : n / 4 ≤ fuel := by omega
      obtain ⟨ih1, ih2⟩ := isqrtAux_spec fuel (n / 4) hrec
      set s0 := isqrtAux fuel (n / 4) with hs0
      have hlow : (2 * s0) * (2 * s0) ≤ n := by
        have h4 : 4 * (s0 * s0) ≤ 4 * (n / 4) := by omega
        have := Nat.div_mul_le_self n 4
        calc (2 * s0) * (2 * s0) = 4 * (s0 * s0) := by ring
          _ ≤ 4 * (n / 4) := h4
          _ = (n / 4) * 4 := by ring
          _ ≤ n := Nat.div_mul_le_self n 4
      have hhigh : n < (2 * s0 + 2) * (2 * s0 + 2) := by
        have h4 : n / 4 + 1 ≤ (s0 + 1) * (s0 + 1) := ih2
        have hmod := Nat.div_add_mod n 4
        have hm4 : n % 4 < 4 := Nat.mod_lt n (by norm_num)
        calc n = 4 * (n / 4) + n % 4 := hmod.symm
          _ < 4 * (n / 4) + 4 := by omega
          _ = 4 * (n / 4 + 1) := by ring
          _ ≤ 4 * ((s0 + 1) * (s0 + 1)) := by omega
          _ = (2 * s0 + 2) * (2 * s0 + 2) := by ring
      by_cases h3 : n < (2 * s0 + 1) * (2 * s0 + 1)
      · simp only [if_pos h3]
        exact ⟨hlow, h3⟩
      · simp only [if_neg h3]
        push_neg at h3
        exact ⟨h3, hhigh⟩
lemma isqrt_le (n : ℕ) : isqrt n * isqrt n ≤ n :=
  (isqrtAux_spec n n (le_refl n)).1
lemma lt_succ_isqrt (n : ℕ) : n < (isqrt n + 1) * (isqrt n + 1) :=
  (isqrtAux_spec n n (le_refl n)).2
lemma isqrt_eq_sqrt (n : ℕ) : isqrt n = Nat.sqrt n :=
  Nat.eq_sqrt.mpr ⟨isqrt_le n, lt_succ_isqrt n⟩
namespace IPokemon
lemma cpQuartic_nonneg (bAtk bDef bStm : ℕ) (cpm : ℚ) (a d s : ℕ) :
    0 ≤ cpQuartic bAtk bDef bStm cpm a d s := by
  unfold cpQuartic
  positivity
lemma cpQuartic_mono {bAtk bDef bStm : ℕ} {cpm cpm' : ℚ} {a a' d d' s s' : ℕ}
    (h0 : 0 ≤ cpm) (hc : cpm ≤ cpm') (ha : a ≤ a') (hd : d ≤ d') (hs : s ≤ s') :
    cpQuartic bAtk bDef bStm cpm a d s ≤ cpQuartic bAtk bDef bStm cpm' a' d' s' := by
  unfold cpQuartic
  have hA : ((bAtk + a : ℕ) : ℚ) ≤ ((bAtk + a' : ℕ) : ℚ) := by exact_mod_cast by omega
  have hD : ((bDef + d : ℕ) : ℚ) ≤ ((bDef + d' : ℕ) : ℚ) := by exact_mod_cast by omega
  have hS : ((bStm + s : ℕ) : ℚ) ≤ ((bStm + s' : ℕ) : ℚ) := by exact_mod_cast by omega
  gcongr
lemma cpRadicand_cast (bAtk bDef bStm : ℕ) (cpm : ℚ) (a d s : ℕ) :
    ((cpRadicand bAtk bDef bStm cpm a d s : ℕ) : ℚ) =
      cpQuartic bAtk bDef bStm cpm a d s * ((cpm.den : ℚ) ^ 4) ^ 2 := by
  have hden : ((cpm.den : ℚ)) ≠ 0 := by
    exact_mod_cast cpm.den_ne_zero
  have hnum : ((cpm.num.natAbs : ℚ)) ^ 4 = (cpm : ℚ) ^ 4 * (cpm.den : ℚ) ^ 4 := by
    have h1 : ((cpm.num.natAbs : ℚ)) = |((cpm.num : ℚ))| := by
      push_cast [Int.cast_natAbs]
      ring
    have h2 : ((cpm.num : ℚ)) = cpm * (cpm.den : ℚ) :=
      (div_eq_iff hden).mp (Rat.num_div_den cpm)
    have h3 : |((cpm.num : ℚ))| ^ 4 = ((cpm.num : ℚ)) ^ 4 := by
      have : (4 : ℕ) = 2 * 2 := rfl
      rw [this, pow_mul, pow_mul, sq_abs]
    rw [h1, h3, h2]
    ring
  unfold cpRadicand cpQuartic
  push_cast
  rw [hnum]
  ring
/-- Characterisation of `cpCore`: it is the floor of
sqrt(cpQuartic) / 10, stated without square roots. -/
lemma cpCore_spec (bAtk bDef bStm : ℕ) (cpm : ℚ) (a d s : ℕ) :
    ((10 * cpCore bAtk bDef bStm cpm a d s : ℕ) : ℚ) ^ 2 ≤
        cpQuartic bAtk bDef bStm cpm a d s ∧
      cpQuartic bAtk bDef bStm cpm a d s <
        ((10 * (cpCore bAtk bDef bStm cpm a d s + 1) : ℕ) : ℚ) ^ 2 := by
  set R := cpRadicand bAtk bDef bStm cpm a d s with hR
  set k := 10 * cpm.den ^ 4 with hk
  have hkpos : 0 < k := by
    have := cpm.pos
    positivity
  set s0 := isqrt R with hs0
  have hcore : cpCore bAtk bDef bStm cpm a d s = s0 / k := rfl
  have h1 : (s0 / k) * k ≤ s0 := Nat.div_mul_le_self s0 k
  have h2 : s0 < (s0 / k + 1) * k := by
    rcases Nat.lt_or_ge s0 ((s0 / k + 1) * k) with h | h
    · exact h
    · exfalso
      have := Nat.le_div_iff_mul_le hkpos |>.mpr h
      omega
  have hsq1 : s0 * s0 ≤ R := isqrt_le R
  have hsq2 : R < (s0 + 1) * (s0 + 1) := lt_succ_isqrt R
  have hlow : ((s0 / k) * k) * ((s0 / k) * k) ≤ R :=
    le_trans (Nat.mul_le_mul h1 h1) hsq1
  have hhigh : R < ((s0 / k + 1) * k) * ((s0 / k + 1) * k) := by
    have hle : s0 + 1 ≤ (s0 / k + 1) * k := h2
    exact lt_of_lt_of_le hsq2 (Nat.mul_le_mul hle hle)
  have hcast := cpRadicand_cast bAtk bDef bStm cpm a d s
  rw [← hR] at hcast
  have hkq : ((k : ℕ) : ℚ) = 10 * (cpm.den : ℚ) ^ 4 := by
    rw [hk]; push_cast; ring
  have hdpos : (0 : ℚ) < ((cpm.den : ℚ)) ^ 4 := by
    have := cpm.pos
    positivity
  constructor
  · have : (((s0 / k) * k : ℕ) : ℚ) ^ 2 ≤ ((R : ℕ) : ℚ) := by
      exact_mod_cast (by nlinarith [hlow] : ((s0 / k) * k) ^ 2 ≤ R)
    rw [hcast] at this
    have hexp : (((s0 / k) * k : ℕ) : ℚ) ^ 2 =
        ((10 * (s0 / k) : ℕ) : ℚ) ^ 2 * ((cpm.den : ℚ) ^ 4) ^ 2 := by
      push_cast
      rw [hk]
      push_cast
      ring
    rw [hexp] at this
    have := le_of_mul_le_mul_right (by
      calc ((10 * (s0 / k) : ℕ) : ℚ) ^ 2 * ((cpm.den : ℚ) ^ 4) ^ 2 ≤
          cpQuartic bAtk bDef bStm cpm a d s * ((cpm.den : ℚ) ^ 4) ^ 2 := this) (by positivity)
    rw [hcore]
    exact this
  · have : ((R : ℕ) : ℚ) < (((s0 / k + 1) * k : ℕ) : ℚ) ^ 2 := by
      exact_mod_cast (by nlinarith [hhigh] : R < ((s0 / k + 1) * k) ^ 2)
    rw [hcast] at this
    have hexp : (((s0 / k + 1) * k : ℕ) : ℚ) ^ 2 =
        ((10 * (s0 / k + 1) : ℕ) : ℚ) ^ 2 * ((cpm.den : ℚ) ^ 4) ^ 2 := by
      push_cast
      rw [hk]
      push_cast
      ring
    rw [hexp] at this
    have := lt_of_mul_lt_mul_right (by
      calc cpQuartic bAtk bDef bStm cpm a d s * ((cpm.den : ℚ) ^ 4) ^ 2 <
          ((10 * (s0 / k + 1) : ℕ) : ℚ) ^ 2 * ((cpm.den : ℚ) ^ 4) ^ 2 := this) (by positivity)
    rw [hcore]
    exact this
/-- `cpCore` is monotone along the quartic: lower quartic, lower core. -/
lemma cpCore_mono {bAtk bDef bStm : ℕ} {cpm : ℚ} {a d s : ℕ}
    {bAtk' bDef' bStm' : ℕ} {cpm' : ℚ} {a' d' s' : ℕ}
    (h : cpQuartic bAtk bDef bStm cpm a d s ≤ cpQuartic bAtk' bDef' bStm' cpm' a' d' s') :
    cpCore bAtk bDef bStm cpm a d s ≤ cpCore bAtk' bDef' bStm' cpm' a' d' s' := by
  by_contra hcon
  push_neg at hcon
  have h1 := (cpCore_spec bAtk bDef bStm cpm a d s).1
  have h2 := (cpCore_spec bAtk' bDef' bStm' cpm' a' d' s').2
  have hle : cpCore bAtk' bDef' bStm' cpm' a' d' s' + 1 ≤ cpCore bAtk bDef bStm cpm a d s :=
    hcon
  have hc : ((10 * (cpCore bAtk' bDef' bStm' cpm' a' d' s' + 1) : ℕ) : ℚ) ≤
      ((10 * cpCore bAtk bDef bStm cpm a d s : ℕ) : ℚ) := by
    exact_mod_cast Nat.mul_le_mul_left 10 hle
  have hnn : (0 : ℚ) ≤ ((10 * (cpCore bAtk' bDef' bStm' cpm' a' d' s' + 1) : ℕ) : ℚ) := by
    positivity
  have := pow_le_pow_left₀ hnn hc 2
  linarith
/-- `calc_cp` is monotone along the quartic. -/
lemma calc_cp_mono {bAtk bDef bStm : ℕ} {cpm : ℚ} {a d s : ℕ}
    {bAtk' bDef' bStm' : ℕ} {cpm' : ℚ} {a' d' s' : ℕ}
    (h : cpQuartic bAtk bDef bStm cpm a d s ≤ cpQuartic bAtk' bDef' bStm' cpm' a' d' s') :
    calc_cp bAtk bDef bStm cpm a d s ≤ calc_cp bAtk' bDef' bStm' cpm' a' d' s' :=
  max_le_max (le_refl 10) (cpCore_mono h)
lemma ten_le_calc_cp (bAtk bDef bStm : ℕ) (cpm : ℚ) (a d s : ℕ) :
    10 ≤ calc_cp bAtk bDef bStm cpm a d s :=
  le_max_left _ _
/-- The computable `calc_cp` agrees with the real-number formula of the
source, max(10, floor(Atk * sqrt(Def * Stm) / 10)), for every nonnegative
multiplier. -/
lemma calc_cp_eq_formula (bAtk bDef bStm : ℕ) (cpm : ℚ) (a d s : ℕ) (h : 0 ≤ cpm) :
    ((calc_cp bAtk bDef bStm cpm a d s : ℕ) : ℤ) =
      max 10 ⌊((bAtk + a : ℕ) : ℝ) * ((cpm : ℚ) : ℝ) *
        Real.sqrt ((((bDef + d : ℕ) : ℝ) * ((cpm : ℚ) : ℝ)) *
          (((bStm + s : ℕ) : ℝ) * ((cpm : ℚ) : ℝ))) / 10⌋ := by
  set A : ℝ := ((bAtk + a : ℕ) : ℝ) with hA
  set D : ℝ := ((bDef + d : ℕ) : ℝ) with hD
  set S : ℝ := ((bStm + s : ℕ) : ℝ) with hS
  set c : ℝ := ((cpm : ℚ) : ℝ) with hc
  have hc0 : (0 : ℝ) ≤ c := by rw [hc]; exact_mod_cast h
  have hA0 : (0 : ℝ) ≤ A := by rw [hA]; positivity
  have hD0 : (0 : ℝ) ≤ D := by rw [hD]; positivity
  have hS0 : (0 : ℝ) ≤ S := by rw [hS]; positivity
  have hDS0 : (0 : ℝ) ≤ D * S := mul_nonneg hD0 hS0
  set R : ℕ := cpRadicand bAtk bDef bStm cpm a d s with hRdef
  -- the radicand identity, transported to the reals
  have hRQ : ((R : ℕ) : ℝ) = A ^ 2 * (D * S) * c ^ 4 * ((cpm.den : ℝ) ^ 4) ^ 2 := by
    have h0 := cpRadicand_cast bAtk bDef bStm cpm a d s
    have h1 : (((cpRadicand bAtk bDef bStm cpm a d s : ℕ) : ℚ) : ℝ) =
        ((cpQuartic bAtk bDef bStm cpm a d s * ((cpm.den : ℚ) ^ 4) ^ 2 : ℚ) : ℝ) := by
      exact_mod_cast congrArg (fun q : ℚ => (q : ℝ)) h0
    unfold cpQuartic at h1
    push_cast at h1
    rw [← hRdef] at h1
    rw [h1, hA, hD, hS, hc]
    push_cast
    ring
  -- rewrite the square root expression
  have hsqrt1 : Real.sqrt ((D * c) * (S * c)) = c * Real.sqrt (D * S) := by
    have : (D * c) * (S * c) = c ^ 2 * (D * S) := by ring
    rw [this, Real.sqrt_mul (sq_nonneg c), Real.sqrt_sq hc0]
  have hsqrtR : Real.sqrt ((R : ℕ) : ℝ) = A * c ^ 2 * Real.sqrt (D * S) * (cpm.den : ℝ) ^ 4 := by
    have hy0 : (0 : ℝ) ≤ A * c ^ 2 * Real.sqrt (D * S) * (cpm.den : ℝ) ^ 4 := by
      have := Real.sqrt_nonneg (D * S)
      positivity
    have hx0 : (0 : ℝ) ≤ ((R : ℕ) : ℝ) := by positivity
    rw [Real.sqrt_eq_iff_eq_sq hx0 hy0]
    refine Eq.symm ?_
    have hss : Real.sqrt (D * S) ^ 2 = D * S := Real.sq_sqrt hDS0
    calc (A * c ^ 2 * Real.sqrt (D * S) * (cpm.den : ℝ) ^ 4) ^ 2 =
        A ^ 2 * (Real.sqrt (D * S) ^ 2) * c ^ 4 * ((cpm.den : ℝ) ^ 4) ^ 2 := by ring
      _ = A ^ 2 * (D * S) * c ^ 4 * ((cpm.den : ℝ) ^ 4) ^ 2 := by rw [hss]
      _ = ((R : ℕ) : ℝ) := hRQ.symm
  have hden0 : (0 : ℝ) < ((cpm.den : ℝ)) ^ 4 := by
    have : (0 : ℕ) < cpm.den := cpm.pos
    positivity
  have hexpr : A * c * Real.sqrt ((D * c) * (S * c)) / 10 =
      Real.sqrt ((R : ℕ) : ℝ) / (((10 * cpm.den ^ 4 : ℕ) : ℝ)) := by
    rw [hsqrt1, hsqrtR]
    push_cast
    field_simp
    ring
  have hfl : ⌊A * c * Real.sqrt ((D * c) * (S * c)) / 10⌋₊ =
      cpCore bAtk bDef bStm cpm a d s := by
    rw [hexpr, Nat.floor_div_nat, Real.nat_floor_real_sqrt_eq_nat_sqrt]
    unfold cpCore
    rw [isqrt_eq_sqrt]
  have hnonneg : (0 : ℝ) ≤ A * c * Real.sqrt ((D * c) * (S * c)) / 10 := by
    have := Real.sqrt_nonneg ((D * c) * (S * c))
    positivity
  have hint : ⌊A * c * Real.sqrt ((D * c) * (S * c)) / 10⌋ =
      ((cpCore bAtk bDef bStm cpm a d s : ℕ) : ℤ) := by
    rw [← Int.natCast_floor_eq_floor hnonneg, hfl]
  rw [hint]
  unfold calc_cp
  push_cast [Nat.cast_max]
  rfl
lemma maxLoop_le (f : ℕ → Bool) : ∀ j, maxLoop f j ≤ j
  | 0 => le_refl 0
  | j + 1 => by
    unfold maxLoop
    split
    · exact le_refl _
    · exact le_trans (maxLoop_le f j) (Nat.le_succ j)
lemma maxLoop_ge (f : ℕ → Bool) {i : ℕ} (hfi : f i = true) :
    ∀ j, i ≤ j → i ≤ maxLoop f j
  | 0, h => by simpa [maxLoop] using h
  | j + 1, h => by
    unfold maxLoop
    split
    · exact h
    · rename_i hf
      have : i ≠ j + 1 := fun he => hf (he ▸ hfi)
      exact maxLoop_ge f hfi j (by omega)
/-- If the tracked candidate is below target, any returned combination has
CP at most the target. -/
lemma scanCombos_le (bAtk bDef bStm target : ℕ) :
    ∀ (l : List (ℚ × ℕ × ℕ × ℕ)) (cc : ℕ) (cl : Option (ℚ × ℕ × ℕ × ℕ)),
      (∀ y, cl = some y → cpOf bAtk bDef bStm y ≤ target) →
      ∀ x, scanCombos bAtk bDef bStm target l cc cl = some x →
        cpOf bAtk bDef bStm x ≤ target
  | [], cc, cl, hcl, x, hx => hcl x hx
  | y :: rest, cc, cl, hcl, x, hx => by
    unfold scanCombos at hx
    split at hx
    · rename_i he
      cases hx
      exact le_of_eq he
    · split at hx
      · rename_i hlt
        exact scanCombos_le bAtk bDef bStm target rest _ _
          (by rintro z rfl'
              cases rfl'
              exact le_of_lt hlt.2) x hx
      · exact scanCombos_le bAtk bDef bStm target rest _ _ hcl x hx
/-- If some listed combination has CP exactly the target, the scan returns
a combination with CP exactly the target. -/
lemma scanCombos_finds (bAtk bDef bStm target : ℕ) :
    ∀ (l : List (ℚ × ℕ × ℕ × ℕ)) (cc : ℕ) (cl : Option (ℚ × ℕ × ℕ × ℕ)),
      (∃ y ∈ l, cpOf bAtk bDef bStm y = target) →
      ∃ x, scanCombos bAtk bDef bStm target l cc cl = some x ∧
        cpOf bAtk bDef bStm x = target
  | [], cc, cl, hex => by simp at hex
  | y :: rest, cc, cl, hex => by
    unfold scanCombos
    split
    · rename_i he
      exact ⟨y, rfl, he⟩
    · rename_i hne
      have hrest : ∃ z ∈ rest, cpOf bAtk bDef bStm z = target := by
        rcases hex with ⟨z, hz, hcp⟩
        rcases List.mem_cons.mp hz with rfl | hz'
        · exact absurd hcp hne
        · exact ⟨z, hz', hcp⟩
      split
      · exact scanCombos_finds bAtk bDef bStm target rest _ _ hrest
      · exact scanCombos_finds bAtk bDef bStm target rest _ _ hrest
/-- If every listed combination has CP strictly above the target, the scan
starting from no candidate returns none. -/
lemma scanCombos_none (bAtk bDef bStm target : ℕ) :
    ∀ (l : List (ℚ × ℕ × ℕ × ℕ)) (cc : ℕ),
      (∀ y ∈ l, target < cpOf bAtk bDef bStm y) →
      scanCombos bAtk bDef bStm target l cc none = none
  | [], cc, _ => rfl
  | y :: rest, cc, hall => by
    have hy := hall y (List.mem_cons_self y rest)
    unfold scanCombos
    split
    · rename_i he
      omega
    · split
      · rename_i hlt
        omega
      · exact scanCombos_none bAtk bDef bStm target rest cc
          (fun z hz => hall z (List.mem_cons_of_mem y hz))
lemma findIdx_le_of_true {α : Type} (p : α → Bool) :
    ∀ (l : List α) (i : ℕ) (h : i < l.length), p (l.get ⟨i, h⟩) = true →
      l.findIdx p ≤ i
  | [], i, h, _ => by simp at h
  | x :: xs, 0, h, hp => by
    simp only [List.get] at hp
    simp [List.findIdx_cons, hp]
  | x :: xs, i + 1, h, hp => by
    rw [List.findIdx_cons]
    cases hpx : p x
    · simp only [cond_false]
      have := findIdx_le_of_true p xs i (by simpa using Nat.lt_of_succ_lt_succ h)
        (by simpa using hp)
      omega
    · simp
lemma mem_ivSpace {cpm : ℚ} {x : ℚ × ℕ × ℕ × ℕ} :
    x ∈ ivSpace cpm ↔ x.1 = cpm ∧ x.2.1 < 16 ∧ x.2.2.1 < 16 ∧ x.2.2.2 < 16 := by
  obtain ⟨c, a, d, s⟩ := x
  simp only [ivSpace, List.mem_flatMap, List.mem_map, List.mem_range]
  constructor
  · rintro ⟨a', ha', d', hd', s', hs', he⟩
    cases he
    exact ⟨rfl, ha', hd', hs'⟩
  · rintro ⟨rfl, ha, hd, hs⟩
    exact ⟨a, ha, d, hd, s, hs, rfl⟩
/-- An in-bounds element of the bracketed index span belongs to the
sliced multiplier list. -/
lemma getElem_mem_slice {l : List ℚ} {m k i : ℕ} (h1 : m ≤ i) (h2 : i < m + k)
    (h3 : i < l.length) : l.get ⟨i, h3⟩ ∈ (l.drop m).take k := by
  have hj1 : i - m < (l.drop m).length := by
    rw [List.length_drop]
    omega
  have hj2 : i - m < ((l.drop m).take k).length := by
    rw [List.length_take, List.length_drop]
    omega
  have he : ((l.drop m).take k).get ⟨i - m, hj2⟩ = l.get ⟨i, h3⟩ := by
    show ((l.drop m).take k)[i - m] = l[i]
    rw [List.getElem_take, List.getElem_drop]
    congr 1
    omega
  rw [← he]
  exact List.get_mem _ _ _
end IPokemon
namespace GameMaster
lemma getLastD_append_pair (acc : List ℝ) (x y : ℝ) :
    (acc ++ [x, y]).getLastD 0 = y := by
  have : acc ++ [x, y] = (acc ++ [x]) ++ [y] := by simp
  rw [this]
  exact List.getLastD_concat _ _ _
lemma feedCPMs_acc : ∀ (src acc : List ℝ), acc ≠ [] →
    feedCPMs acc src = acc ++ chainFrom (acc.getLastD 0) src
  | [], acc, _ => by simp [feedCPMs, chainFrom]
  | c :: rest, acc, hne => by
    rw [feedCPMs]
    rw [if_neg (by simpa using hne)]
    rw [feedCPMs_acc rest _ (by simp)]
    rw [getLastD_append_pair]
    simp [chainFrom]
lemma feedCPMs_cons (c : ℝ) (rest : List ℝ) :
    feedCPMs [] (c :: rest) = c :: chainFrom c rest := by
  rw [feedCPMs, if_pos (by simp)]
  rw [feedCPMs_acc rest ([] ++ [c]) (by simp)]
  simp
lemma chainFrom_length : ∀ (l : List ℝ) (p : ℝ),
    (chainFrom p l).length = 2 * l.length
  | [], _ => rfl
  | c :: rest, p => by
    simp only [chainFrom, List.length_cons, chainFrom_length rest c]
    omega
lemma chainFrom_getD_odd : ∀ (l : List ℝ) (p : ℝ) (n : ℕ),
    (chainFrom p l).getD (2 * n + 1) 0 = l.getD n 0
  | [], p, n => by simp [chainFrom]
  | c :: rest, p, 0 => by simp [chainFrom]
  | c :: rest, p, n + 1 => by
    have h2 : 2 * (n + 1) + 1 = (2 * n + 1) + 1 + 1 := by omega
    simp only [chainFrom, h2, List.getD_cons_succ]
    exact chainFrom_getD_odd rest c n
lemma chainFrom_getD_even : ∀ (l : List ℝ) (p : ℝ) (n : ℕ), n < l.length →
    (chainFrom p l).getD (2 * n) 0 =
      Real.sqrt (((l.getD n 0) ^ 2 + ((p :: l).getD n 0) ^ 2) / 2)
  | [], p, n, h => by simp at h
  | c :: rest, p, 0, _ => by simp [chainFrom]
  | c :: rest, p, n + 1, h => by
    have h2 : 2 * (n + 1) = (2 * n) + 1 + 1 := by omega
    simp only [chainFrom, h2, List.getD_cons_succ]
    exact chainFrom_getD_even rest c n (by simpa using Nat.lt_of_succ_lt_succ h)
/-- Interpolation bounds: for 0 ≤ p < y the inserted half value lies
strictly between p and y. -/
lemma half_bounds {p y : ℝ} (h0 : 0 ≤ p) (h : p < y) :
    p < Real.sqrt ((y ^ 2 + p ^ 2) / 2) ∧ Real.sqrt ((y ^ 2 + p ^ 2) / 2) < y := by
  have hy0 : 0 < y := lt_of_le_of_lt h0 h
  have hpy : p ^ 2 < y ^ 2 := by nlinarith
  constructor
  · have h1 : p ^ 2 < (y ^ 2 + p ^ 2) / 2 := by nlinarith
    have := Real.sqrt_lt_sqrt (by positivity) h1
    rwa [Real.sqrt_sq h0] at this
  · have h1 : (y ^ 2 + p ^ 2) / 2 < y ^ 2 := by nlinarith
    have := Real.sqrt_lt_sqrt (by positivity) h1
    rwa [Real.sqrt_sq (le_of_lt hy0)] at this
lemma chainFrom_chain : ∀ (l : List ℝ) (p : ℝ), 0 < p →
    List.Chain (fun a b : ℝ => a < b) p l →
    List.Chain (fun a b : ℝ => a < b) p (chainFrom p l)
  | [], p, _, _ => List.Chain.nil
  | c :: rest, p, hp, hch => by
    rcases List.chain_cons.mp hch with ⟨hpc, hrest⟩
    obtain ⟨hb1, hb2⟩ := half_bounds (le_of_lt hp) hpc
    exact List.chain_cons.mpr ⟨hb1, List.chain_cons.mpr
      ⟨hb2, chainFrom_chain rest c (lt_trans hp hpc) hrest⟩⟩
lemma searchGo_all (f : GMEntity → Bool) : ∀ (u acc : List GMEntity),
    searchGo f true acc u = .ok (.many (acc ++ u.filter f))
  | [], acc => by simp [searchGo]
  | e :: rest, acc => by
    rw [searchGo]
    cases hfe : f e with
    | true =>
      rw [if_pos rfl, if_pos rfl, searchGo_all f rest (acc ++ [e])]
      simp [List.filter_cons, hfe]
    | false =>
      rw [if_neg (by simp), searchGo_all f rest acc]
      simp [List.filter_cons, hfe]
lemma searchGo_first (f : GMEntity → Bool) : ∀ (u acc : List GMEntity),
    searchGo f false acc u =
      (match u.find? f with
       | some e => Except.ok (SearchResult.one e)
       | none => Except.error (GMError.notFound "Entity not found"))
  | [], acc => by simp [searchGo, List.find?]
  | e :: rest, acc => by
    rw [searchGo]
    cases hfe : f e with
    | true => simp [hfe, List.find?_cons, searchGo]
    | false =>
      rw [if_neg (by simp), searchGo_first f rest acc]
      simp [List.find?_cons, hfe]
end GameMaster

/-! ## Claims C1 to C4: the CP formula and the level/IV inference search -/
open IPokemon in
/-- C1 (corrected): as stated, the claim is false — an exact combination
sitting at a table index whose max-IV CP equals the target exactly (so the
lower bracketing loop walks past it) is missed.  Concretely, with the
one-entry strictly increasing table [1], base stats 100/100/100 and target
1322, the combination (index 0, IVs 15/15/15) has calc_cp exactly 1322,
yet infer_level_and_IVs returns none. -/
theorem claim_C1_counterexample :
    ([(1 : ℚ)] ≠ [] ∧ List.Pairwise (fun a b : ℚ => a < b) [(1 : ℚ)]) ∧
      calc_cp 100 100 100 1 15 15 15 = 1322 ∧
      infer_level_and_IVs [(1 : ℚ)] 100 100 100 1322 = none := by
  refine ⟨⟨by simp, by simp⟩, by decide, by decide⟩
open IPokemon in
/-- C1 (amended): for every base-stat triple, target CP and non-empty
strictly increasing multiplier table, infer_level_and_IVs never returns a
combination whose calc_cp exceeds the target; and if some table index i
and IV triple in 0..15 give calc_cp exactly the target, where moreover the
max-IV CP at index i strictly exceeds the target and the min-IV CP at
index i is strictly below the target, then a combination with calc_cp
exactly the target is returned. -/
theorem claim_C1 (CPMultipliers : List ℚ) (bAtk bDef bStm target : ℕ)
    (hne : CPMultipliers ≠ [])
    (hsorted : List.Pairwise (fun a b : ℚ => a < b) CPMultipliers) :
    (∀ cpm a d s,
        infer_level_and_IVs CPMultipliers bAtk bDef bStm target = some (cpm, a, d, s) →
        calc_cp bAtk bDef bStm cpm a d s ≤ target) ∧
      ((∃ i, ∃ h : i < CPMultipliers.length, ∃ a d s, a ≤ 15 ∧ d ≤ 15 ∧ s ≤ 15 ∧
          calc_cp bAtk bDef bStm (CPMultipliers.get ⟨i, h⟩) a d s = target ∧
          target < calc_cp bAtk bDef bStm (CPMultipliers.get ⟨i, h⟩) 15 15 15 ∧
          calc_cp bAtk bDef bStm (CPMultipliers.get ⟨i, h⟩) 0 0 0 < target) →
        ∃ cpm a d s,
          infer_level_and_IVs CPMultipliers bAtk bDef bStm target = some (cpm, a, d, s) ∧
          calc_cp bAtk bDef bStm cpm a d s = target) := by
  set l := CPMultipliers with hl
  set min_i := l.findIdx
    (fun c => decide (target < calc_cp bAtk bDef bStm c 15 15 15)) with hmin
  set max_i := maxLoop
    (fun j => decide (calc_cp bAtk bDef bStm (l.getD j 0) 0 0 0 < target))
    (l.length - 1) with hmax
  set combos := ((l.drop min_i).take (max_i + 1 - min_i)).flatMap ivSpace with hcombos
  have hinf : infer_level_and_IVs l bAtk bDef bStm target =
      scanCombos bAtk bDef bStm target combos 0 none := rfl
  constructor
  · intro cpm a d s hsome
    rw [hinf] at hsome
    have := scanCombos_le bAtk bDef bStm target combos 0 none
      (by intro y hy; cases hy) (cpm, a, d, s) hsome
    exact this
  · rintro ⟨i, hi, a, d, s, ha, hd, hs, hcp, hmaxiv, hminiv⟩
    have hge_min : min_i ≤ i := by
      rw [hmin]
      refine findIdx_le_of_true _ l i hi ?_
      simpa using hmaxiv
    have hle_max : i ≤ max_i := by
      rw [hmax]
      refine maxLoop_ge _ ?_ (l.length - 1) (by omega)
      show decide (calc_cp bAtk bDef bStm (l.getD i 0) 0 0 0 < target) = true
      have hgd : l.getD i 0 = l.get ⟨i, hi⟩ := List.getD_eq_getElem l 0 hi
      rw [hgd]
      exact decide_eq_true hminiv
    have hmem_slice : l.get ⟨i, hi⟩ ∈ (l.drop min_i).take (max_i + 1 - min_i) :=
      getElem_mem_slice hge_min (by omega) hi
    have hmem : (l.get ⟨i, hi⟩, a, d, s) ∈ combos := by
      rw [hcombos]
      refine List.mem_flatMap.mpr ⟨l.get ⟨i, hi⟩, hmem_slice,
        mem_ivSpace.mpr ⟨rfl, ?_, ?_, ?_⟩⟩
      · show a < 16
        omega
      · show d < 16
        omega
      · show s < 16
        omega
    obtain ⟨x, hx, hxcp⟩ := scanCombos_finds bAtk bDef bStm target combos 0 none
      ⟨(l.get ⟨i, hi⟩, a, d, s), hmem, hcp⟩
    refine ⟨x.1, x.2.1, x.2.2.1, x.2.2.2, ?_, hxcp⟩
    rw [hinf]
    exact hx
/-- Witness for C1's amended theorem at a concrete input. -/
theorem claim_C1_witness :
    ([(1 : ℚ)] ≠ [] ∧ List.Pairwise (fun a b : ℚ => a < b) [(1 : ℚ)]) ∧
      ((∀ cpm a d s,
          IPokemon.infer_level_and_IVs [(1 : ℚ)] 100 100 100 1311 = some (cpm, a, d, s) →
          IPokemon.calc_cp 100 100 100 cpm a d s ≤ 1311) ∧
        ((∃ i, ∃ h : i < ([(1 : ℚ)]).length, ∃ a d s, a ≤ 15 ∧ d ≤ 15 ∧ s ≤ 15 ∧
            IPokemon.calc_cp 100 100 100 (([(1 : ℚ)]).get ⟨i, h⟩) a d s = 1311 ∧
            1311 < IPokemon.calc_cp 100 100 100 (([(1 : ℚ)]).get ⟨i, h⟩) 15 15 15 ∧
            IPokemon.calc_cp 100 100 100 (([(1 : ℚ)]).get ⟨i, h⟩) 0 0 0 < 1311) →
          ∃ cpm a d s,
            IPokemon.infer_level_and_IVs [(1 : ℚ)] 100 100 100 1311 = some (cpm, a, d, s) ∧
            IPokemon.calc_cp 100 100 100 cpm a d s = 1311)) :=
  ⟨⟨by simp, by simp⟩, claim_C1 [(1 : ℚ)] 100 100 100 1311 (by simp) (by simp)⟩
set_option maxRecDepth 100000 in
open IPokemon in
/-- C2 (confirmed): calc_cp equals max(10, floor(Atk * sqrt(Def * Stm) / 10))
with Atk = (bAtk+atkiv)*cpm, Def = (bDef+defiv)*cpm, Stm = (bStm+stmiv)*cpm,
for every nonnegative multiplier; and at base stats 198/189/190, multiplier
0.7903 and IVs 15/15/15 it yields the reference value 2720 of that formula. -/
theorem claim_C2 :
    (∀ (bAtk bDef bStm : ℕ) (cpm : ℚ) (a d s : ℕ), 0 ≤ cpm →
      ((calc_cp bAtk bDef bStm cpm a d s : ℕ) : ℤ) =
        max 10 ⌊((bAtk + a : ℕ) : ℝ) * ((cpm : ℚ) : ℝ) *
          Real.sqrt ((((bDef + d : ℕ) : ℝ) * ((cpm : ℚ) : ℝ)) *
            (((bStm + s : ℕ) : ℝ) * ((cpm : ℚ) : ℝ))) / 10⌋) ∧
      calc_cp 198 189 190 (7903 / 10000) 15 15 15 = 2720 := by
  constructor
  · exact calc_cp_eq_formula
  · have h : (7903 : ℚ) / 10000 = (⟨7903, 10000, by norm_num, by norm_num⟩ : ℚ) := by
      rw [Rat.mk'_eq_divInt, Rat.divInt_eq_div]
      norm_num
    rw [h]
    decide
/-- Witness for C2 at a concrete input: the multiplier 1 is nonnegative and
the formula equation holds there. -/
theorem claim_C2_witness :
    (0 : ℚ) ≤ 1 ∧
      ((IPokemon.calc_cp 100 100 100 1 15 15 15 : ℕ) : ℤ) =
        max 10 ⌊((100 + 15 : ℕ) : ℝ) * (((1 : ℚ) : ℚ) : ℝ) *
          Real.sqrt ((((100 + 15 : ℕ) : ℝ) * (((1 : ℚ) : ℚ) : ℝ)) *
            (((100 + 15 : ℕ) : ℝ) * (((1 : ℚ) : ℚ) : ℝ))) / 10⌋ :=
  ⟨by norm_num, claim_C2.1 100 100 100 1 15 15 15 (by norm_num)⟩
open IPokemon in
/-- C3 (confirmed): calc_cp is non-decreasing in each single IV (the other
two and the multiplier fixed), non-decreasing in the multiplier (IVs
fixed), and consequently calc_cp at IVs 15/15/15 dominates calc_cp at IVs
0/0/0 for the same base stats and multiplier. -/
theorem claim_C3 (bAtk bDef bStm : ℕ) (cpm cpm' : ℚ) (a a' d d' s s' : ℕ)
    (hcpm0 : 0 ≤ cpm) (hcpm : cpm ≤ cpm') (ha : a ≤ a') (ha15 : a' ≤ 15)
    (hd : d ≤ d') (hd15 : d' ≤ 15) (hs : s ≤ s') (hs15 : s' ≤ 15) :
    calc_cp bAtk bDef bStm cpm a d s ≤ calc_cp bAtk bDef bStm cpm a' d s ∧
      calc_cp bAtk bDef bStm cpm a d s ≤ calc_cp bAtk bDef bStm cpm a d' s ∧
      calc_cp bAtk bDef bStm cpm a d s ≤ calc_cp bAtk bDef bStm cpm a d s' ∧
      calc_cp bAtk bDef bStm cpm a d s ≤ calc_cp bAtk bDef bStm cpm' a d s ∧
      calc_cp bAtk bDef bStm cpm 0 0 0 ≤ calc_cp bAtk bDef bStm cpm 15 15 15 :=
  ⟨calc_cp_mono (cpQuartic_mono hcpm0 (le_refl cpm) ha (le_refl d) (le_refl s)),
    calc_cp_mono (cpQuartic_mono hcpm0 (le_refl cpm) (le_refl a) hd (le_refl s)),
    calc_cp_mono (cpQuartic_mono hcpm0 (le_refl cpm) (le_refl a) (le_refl d) hs),
    calc_cp_mono (cpQuartic_mono hcpm0 hcpm (le_refl a) (le_refl d) (le_refl s)),
    calc_cp_mono (cpQuartic_mono hcpm0 (le_refl cpm) (by omega) (by omega) (by omega))⟩
/-- Witness for C3 at concrete inputs. -/
theorem claim_C3_witness :
    IPokemon.calc_cp 100 90 80 1 3 2 0 ≤ IPokemon.calc_cp 100 90 80 1 7 2 0 ∧
      IPokemon.calc_cp 100 90 80 1 3 2 0 ≤ IPokemon.calc_cp 100 90 80 1 3 9 0 ∧
      IPokemon.calc_cp 100 90 80 1 3 2 0 ≤ IPokemon.calc_cp 100 90 80 1 3 2 15 ∧
      IPokemon.calc_cp 100 90 80 1 3 2 0 ≤ IPokemon.calc_cp 100 90 80 2 3 2 0 ∧
      IPokemon.calc_cp 100 90 80 1 0 0 0 ≤ IPokemon.calc_cp 100 90 80 1 15 15 15 :=
  claim_C3 100 90 80 1 2 3 7 2 9 0 15 (by norm_num) (by norm_num) (by omega)
    (by omega) (by omega) (by omega) (by omega) (by omega)
open IPokemon in
/-- C4 (confirmed): calc_cp never returns less than 10, and whenever the
target CP is strictly below every calc_cp value reachable from the table
and the IV cube 0..15 (in particular for any target below 10),
infer_level_and_IVs terminates with none rather than erroring; in this
embedding the search is structurally recursive, so termination is by
construction. -/
theorem claim_C4 (CPMultipliers : List ℚ) (bAtk bDef bStm target : ℕ) :
    (∀ (cpm : ℚ) (a d s : ℕ), 10 ≤ calc_cp bAtk bDef bStm cpm a d s) ∧
      ((∀ cpm ∈ CPMultipliers, ∀ a < 16, ∀ d < 16, ∀ s < 16,
          target < calc_cp bAtk bDef bStm cpm a d s) →
        infer_level_and_IVs CPMultipliers bAtk bDef bStm target = none) := by
  refine ⟨fun cpm a d s => ten_le_calc_cp bAtk bDef bStm cpm a d s, fun h => ?_⟩
  have hinf : infer_level_and_IVs CPMultipliers bAtk bDef bStm target =
      scanCombos bAtk bDef bStm target
        (((CPMultipliers.drop
              (CPMultipliers.findIdx fun c =>
                decide (target < calc_cp bAtk bDef bStm c 15 15 15))).take
            (maxLoop (fun j =>
                decide (calc_cp bAtk bDef bStm (CPMultipliers.getD j 0) 0 0 0 < target))
              (CPMultipliers.length - 1) + 1 -
              CPMultipliers.findIdx fun c =>
                decide (target < calc_cp bAtk bDef bStm c 15 15 15))).flatMap ivSpace)
        0 none := rfl
  rw [hinf]
  apply scanCombos_none
  intro y hy
  obtain ⟨c, hc_slice, hy_iv⟩ := List.mem_flatMap.mp hy
  obtain ⟨hc_eq, hya, hyd, hys⟩ := mem_ivSpace.mp hy_iv
  have hcl : c ∈ CPMultipliers :=
    ((List.take_sublist _ _).trans (List.drop_sublist _ _)).subset hc_slice
  have hval := h c hcl y.2.1 hya y.2.2.1 hyd y.2.2.2 hys
  show target < calc_cp bAtk bDef bStm y.1 y.2.1 y.2.2.1 y.2.2.2
  rw [hc_eq]
  exact hval
/-- Witness for C4: with the table [1], zero base stats and target 5, every
reachable CP is at least 10 > 5, and the inference returns none. -/
theorem claim_C4_witness :
    (∀ cpm ∈ [(1 : ℚ)], ∀ a < 16, ∀ d < 16, ∀ s < 16,
        5 < IPokemon.calc_cp 0 0 0 cpm a d s) ∧
      IPokemon.infer_level_and_IVs [(1 : ℚ)] 0 0 0 5 = none := by
  have h : ∀ cpm ∈ [(1 : ℚ)], ∀ a < 16, ∀ d < 16, ∀ s < 16,
      5 < IPokemon.calc_cp 0 0 0 cpm a d s := by
    intro cpm _ a _ d _ s _
    have := IPokemon.ten_le_calc_cp 0 0 0 cpm a d s
    omega
  exact ⟨h, (claim_C4 [(1 : ℚ)] 0 0 0 5).2 h⟩
/-! ## Claim C5: the half-level CP multiplier table -/
open GameMaster in
/-- C5 (confirmed): ingesting a strictly increasing positive cpMultiplier
list produces a strictly increasing sequence of length 2n-1 whose
even-index entries are the source entries in order and whose odd-index
entries are the interpolated values sqrt((cpm[n+1]^2 + cpm[n]^2)/2),
strictly between their neighbours; so index i corresponds to level 1+i/2. -/
theorem claim_C5 (src : List ℝ) (hinc : List.Chain' (fun a b : ℝ => a < b) src)
    (hpos : ∀ x ∈ src, 0 < x) :
    (feedCPMs [] src).length = 2 * src.length - 1 ∧
      List.Chain' (fun a b : ℝ => a < b) (feedCPMs [] src) ∧
      (∀ n, n < src.length → (feedCPMs [] src).getD (2 * n) 0 = src.getD n 0) ∧
      (∀ n, n + 1 < src.length →
        (feedCPMs [] src).getD (2 * n + 1) 0 =
          Real.sqrt (((src.getD (n + 1) 0) ^ 2 + (src.getD n 0) ^ 2) / 2) ∧
        src.getD n 0 < (feedCPMs [] src).getD (2 * n + 1) 0 ∧
        (feedCPMs [] src).getD (2 * n + 1) 0 < src.getD (n + 1) 0) := by
  cases src with
  | nil =>
    refine ⟨rfl, List.chain'_nil, ?_, ?_⟩
    · intro n hn
      simp at hn
    · intro n hn
      simp at hn
  | cons c rest =>
    rw [feedCPMs_cons]
    have hchain : List.Chain (fun a b : ℝ => a < b) c rest := hinc
    have hc0 : 0 < c := hpos c (List.mem_cons_self c rest)
    refine ⟨?_, ?_, ?_, ?_⟩
    · simp only [List.length_cons, chainFrom_length]
      omega
    · exact chainFrom_chain rest c hc0 hchain
    · intro n hn
      cases n with
      | zero => simp
      | succ m =>
        have h2 : 2 * (m + 1) = (2 * m + 1) + 1 := by omega
        simp only [h2, List.getD_cons_succ]
        exact chainFrom_getD_odd rest c m
    · intro n hn
      have hlen : n < rest.length := by simpa using hn
      have heven := chainFrom_getD_even rest c n hlen
      have hform : (c :: chainFrom c rest).getD (2 * n + 1) 0 =
          Real.sqrt ((((c :: rest).getD (n + 1) 0) ^ 2 + ((c :: rest).getD n 0) ^ 2) / 2) := by
        rw [List.getD_cons_succ, heven]
        rfl
      have hp0 : 0 ≤ (c :: rest).getD n 0 := by
        have hmem : (c :: rest).getD n 0 ∈ c :: rest := by
          rw [List.getD_eq_getElem _ 0 (by simpa using Nat.lt_succ_of_lt hlen)]
          exact List.getElem_mem _
        exact le_of_lt (hpos _ hmem)
      have hlt : (c :: rest).getD n 0 < (c :: rest).getD (n + 1) 0 := by
        have h1 := List.chain'_iff_get.mp hinc n (by simpa using hn)
        rw [List.getD_eq_getElem _ 0 (by simpa using Nat.lt_succ_of_lt hlen),
          List.getD_eq_getElem _ 0 (by simpa using hn)]
        exact h1
      obtain ⟨hb1, hb2⟩ := half_bounds hp0 hlt
      exact ⟨hform, by rw [hform]; exact hb1, by rw [hform]; exact hb2⟩
/-- Witness for C5 at the concrete strictly increasing positive source
list [1, 2]. -/
theorem claim_C5_witness :
    ((GameMaster.feedCPMs [] [(1 : ℝ), 2]).length = 2 * ([(1 : ℝ), 2]).length - 1 ∧
      List.Chain' (fun a b : ℝ => a < b) (GameMaster.feedCPMs [] [(1 : ℝ), 2]) ∧
      (∀ n, n < ([(1 : ℝ), 2]).length →
        (GameMaster.feedCPMs [] [(1 : ℝ), 2]).getD (2 * n) 0 = ([(1 : ℝ), 2]).getD n 0) ∧
      (∀ n, n + 1 < ([(1 : ℝ), 2]).length →
        (GameMaster.feedCPMs [] [(1 : ℝ), 2]).getD (2 * n + 1) 0 =
          Real.sqrt (((([(1 : ℝ), 2]).getD (n + 1) 0) ^ 2 +
            (([(1 : ℝ), 2]).getD n 0) ^ 2) / 2) ∧
        ([(1 : ℝ), 2]).getD n 0 < (GameMaster.feedCPMs [] [(1 : ℝ), 2]).getD (2 * n + 1) 0 ∧
        (GameMaster.feedCPMs [] [(1 : ℝ), 2]).getD (2 * n + 1) 0 <
          ([(1 : ℝ), 2]).getD (n + 1) 0)) :=
  claim_C5 [(1 : ℝ), 2]
    (List.chain'_cons.mpr ⟨by norm_num, List.chain'_singleton 2⟩)
    (by intro x hx
        rcases List.mem_cons.mp hx with rfl | hx'
        · norm_num
        · rcases List.mem_cons.mp hx' with rfl | hx''
          · norm_num
          · simp at hx'')
/-! ## Claims C6 to C8: entity search and the friendship table -/
open GameMaster in
/-- C6 (confirmed): in all-matches mode _search returns exactly the
subsequence of entities satisfying the criteria in table order (possibly
empty, never an error); in first-match mode it returns the first entity
satisfying the criteria, and errors with NotFound exactly when none does
(List.find? is the first-match selector, returning none exactly when no
entity satisfies the callback). -/
theorem claim_C6 (_universe : List GMEntity) (criteria : Criteria) :
    search _universe criteria true =
      .ok (.many (_universe.filter (criteriaFn criteria))) ∧
      search _universe criteria false =
        (match _universe.find? (criteriaFn criteria) with
         | some e => Except.ok (SearchResult.one e)
         | none => Except.error (GMError.notFound "Entity not found")) := by
  constructor
  · rw [search, searchGo_all]
    rfl
  · rw [search, searchGo_first]
open GameMaster in
/-- C7 (corrected): the claim is false — search_weather does not fail on an
unmatched name; it is total and returns the sentinel index -1.  With the
one-entry table [CLOUDY] and the query "sunny", no entry matches, and the
lookup evaluates to -1 rather than raising a NotFound error. -/
theorem claim_C7_counterexample :
    (∀ w ∈ [WeatherSetting.mk "CLOUDY" ["water"]],
        (pyLower w.name == pyLower "sunny") = false) ∧
      search_weather [WeatherSetting.mk "CLOUDY" ["water"]] "sunny" = -1 := by
  constructor
  · intro w hw
    rcases List.mem_cons.mp hw with rfl | hw'
    · decide
    · simp at hw'
  · decide
open GameMaster in
/-- C7 (amended): for every weather name that matches (case-insensitively)
no entry of the weather table, search_weather returns the sentinel -1
instead of raising. -/
theorem claim_C7 (WeatherSettings : List WeatherSetting) (weather_name : String)
    (h : ∀ w ∈ WeatherSettings, (pyLower w.name == pyLower weather_name) = false) :
    search_weather WeatherSettings weather_name = -1 := by
  rw [search_weather]
  generalize 0 = i
  induction WeatherSettings generalizing i with
  | nil => rfl
  | cons w rest ih =>
    rw [search_weatherGo]
    rw [if_neg (by simp [h w (List.mem_cons_self w rest)])]
    exact ih (fun x hx => h x (List.mem_cons_of_mem w hx)) (i + 1)
open GameMaster in
/-- Witness for C7's amended theorem at a concrete table and query. -/
theorem claim_C7_witness :
    (∀ w ∈ [WeatherSetting.mk "CLOUDY" ["water"], WeatherSetting.mk "SUNNY" ["grass"]],
        (pyLower w.name == pyLower "windy") = false) ∧
      search_weather [WeatherSetting.mk "CLOUDY" ["water"],
        WeatherSetting.mk "SUNNY" ["grass"]] "windy" = -1 := by
  have h : ∀ w ∈ [WeatherSetting.mk "CLOUDY" ["water"], WeatherSetting.mk "SUNNY" ["grass"]],
      (pyLower w.name == pyLower "windy") = false := by
    intro w hw
    rcases List.mem_cons.mp hw with rfl | hw'
    · decide
    · rcases List.mem_cons.mp hw' with rfl | hw''
      · decide
      · simp at hw''
  exact ⟨h, claim_C7 _ _ h⟩
open GameMaster in
/-- C8 (confirmed): after the final ingestion pass (a stable sort on the
multiplier key), adjacent friendship multipliers are non-decreasing for
every source order; and when the table has five entries, the alternate
names none/good/great/ultra/best resolve to the multipliers of ranks
0/1/2/3/4 respectively. -/
theorem claim_C8 (src : List FriendSetting) :
    (∀ i, i + 1 < (sortFriends src).length →
        ((sortFriends src).getD i default).multiplier ≤
          ((sortFriends src).getD (i + 1) default).multiplier) ∧
      ((sortFriends src).length = 5 →
        search_friend (sortFriends src) "none" =
            .ok (((sortFriends src).getD 0 default).multiplier) ∧
          search_friend (sortFriends src) "good" =
            .ok (((sortFriends src).getD 1 default).multiplier) ∧
          search_friend (sortFriends src) "great" =
            .ok (((sortFriends src).getD 2 default).multiplier) ∧
          search_friend (sortFriends src) "ultra" =
            .ok (((sortFriends src).getD 3 default).multiplier) ∧
          search_friend (sortFriends src) "best" =
            .ok (((sortFriends src).getD 4 default).multiplier)) := by
  constructor
  · intro i hlt
    have hpw : List.Pairwise
        (fun a b : FriendSetting => (a.multiplier ≤ b.multiplier : Bool) = true)
        (sortFriends src) := by
      apply List.sorted_mergeSort
      · intro a b c hab hbc
        simp only [decide_eq_true_eq] at hab hbc ⊢
        exact le_trans hab hbc
      · intro a b
        simpa using le_total a.multiplier b.multiplier
    have hget := List.pairwise_iff_getElem.mp hpw i (i + 1) (by omega) hlt (by omega)
    simp only [decide_eq_true_eq] at hget
    rw [List.getD_eq_getElem _ _ (by omega), List.getD_eq_getElem _ _ hlt]
    exact hget
  · intro hlen
    rcases hsort : sortFriends src with _ | ⟨f0, _ | ⟨f1, _ | ⟨f2, _ | ⟨f3, _ | ⟨f4, _ | ⟨f5, t⟩⟩⟩⟩⟩⟩ <;>
      rw [hsort] at hlen <;> simp at hlen
    exact ⟨rfl, rfl, rfl, rfl, rfl⟩
open GameMaster in
/-- Witness for C8: the five-entry source list is sorted to a five-entry
table and the five alternate names resolve to ranks 0 to 4. -/
theorem claim_C8_witness :
    (sortFriends friendSrcW).length = 5 ∧
      (search_friend (sortFriends friendSrcW) "none" =
          .ok (((sortFriends friendSrcW).getD 0 default).multiplier) ∧
        search_friend (sortFriends friendSrcW) "good" =
          .ok (((sortFriends friendSrcW).getD 1 default).multiplier) ∧
        search_friend (sortFriends friendSrcW) "great" =
          .ok (((sortFriends friendSrcW).getD 2 default).multiplier) ∧
        search_friend (sortFriends friendSrcW) "ultra" =
          .ok (((sortFriends friendSrcW).getD 3 default).multiplier) ∧
        search_friend (sortFriends friendSrcW) "best" =
          .ok (((sortFriends friendSrcW).getD 4 default).multiplier)) := by
  have hlen : (sortFriends friendSrcW).length = 5 := by
    rw [sortFriends, List.length_mergeSort]
    rfl
  exact ⟨hlen, (claim_C8 friendSrcW).2 hlen⟩
/-! ## Claims C9 and C10: role-dependent stat derivation -/
open IPokemon in
/-- C9 (confirmed): for a gym-defender request without a tier key whose
stat derivation succeeds, the derived stats come from some multiplier and
IV triple with attack (bAtk+atkiv)*cpm and defense (bDef+defiv)*cpm equal
to the regular-attacker values, and final max health exactly twice the
regular-attacker value int((bStm+stmiv)*cpm); the same request with the
regular-attacker role derives exactly those undoubled stats. -/
theorem claim_C9 (CPMultipliers : List ℚ) (bAtk bDef bStm : ℕ)
    (req : PokemonRequest) (htier : req.tier = none)
    (hrole : req.role = some ROLE_GYM_DEFENDER) :
    ∀ t, derive_targets CPMultipliers bAtk bDef bStm req = .ok t →
      ∃ (cpm : ℚ) (atkiv defiv stmiv : ℕ),
        t.attack = ((bAtk + atkiv : ℕ) : ℚ) * cpm ∧
        t.defense = ((bDef + defiv : ℕ) : ℚ) * cpm ∧
        t.max_hp = 2 * pyInt (((bStm + stmiv : ℕ) : ℚ) * cpm) ∧
        derive_targets CPMultipliers bAtk bDef bStm
            { req with role := some ROLE_PVE_ATTACKER } =
          .ok ⟨((bAtk + atkiv : ℕ) : ℚ) * cpm, ((bDef + defiv : ℕ) : ℚ) * cpm,
            pyInt (((bStm + stmiv : ℕ) : ℚ) * cpm)⟩ := by
  intro t ht
  simp only [derive_targets, hrole, htier, Option.getD_some, Option.isSome_none,
    Bool.or_false, show (ROLE_GYM_DEFENDER == ROLE_RAID_BOSS) = false from rfl,
    Bool.false_eq_true, if_false] at ht
  cases hx : (match req.cp with
      | some cp =>
        match infer_level_and_IVs CPMultipliers bAtk bDef bStm cp with
        | none => Except.error GMError.typeError
        | some x => Except.ok x
      | none =>
        match GameMaster.search_cpm CPMultipliers (req.level.getD 40) with
        | .error e => Except.error e
        | .ok cpm =>
          Except.ok (cpm, req.atkiv.getD 15, req.defiv.getD 15, req.stmiv.getD 15)) with
  | error e =>
    rw [hx] at ht
    cases ht
  | ok x =>
    obtain ⟨cpm, atkiv, defiv, stmiv⟩ := x
    rw [hx] at ht
    simp only [show (ROLE_GYM_DEFENDER == ROLE_GYM_DEFENDER) = true from rfl,
      if_true, Except.ok.injEq] at ht
    subst ht
    refine ⟨cpm, atkiv, defiv, stmiv, rfl, rfl, rfl, ?_⟩
    simp only [derive_targets, htier, Option.getD_some, Option.isSome_none,
      Bool.or_false, show (ROLE_PVE_ATTACKER == ROLE_RAID_BOSS) = false from rfl,
      Bool.false_eq_true, if_false]
    rw [hx]
    simp only [show (ROLE_PVE_ATTACKER == ROLE_GYM_DEFENDER) = false from rfl,
      Bool.false_eq_true, if_false]
/-- Witness for C9: a gym-defender request resolved from explicit level 1
on the one-entry table [1]. -/
theorem claim_C9_witness :
    (PokemonRequest.mk (some ROLE_GYM_DEFENDER) none none (some 1) none none none).tier =
        none ∧
      (PokemonRequest.mk (some ROLE_GYM_DEFENDER) none none (some 1) none none none).role =
        some ROLE_GYM_DEFENDER ∧
      (∀ t, IPokemon.derive_targets [(1 : ℚ)] 100 100 100
          (PokemonRequest.mk (some ROLE_GYM_DEFENDER) none none (some 1) none none none) =
            .ok t →
        ∃ (cpm : ℚ) (atkiv defiv stmiv : ℕ),
          t.attack = ((100 + atkiv : ℕ) : ℚ) * cpm ∧
          t.defense = ((100 + defiv : ℕ) : ℚ) * cpm ∧
          t.max_hp = 2 * pyInt (((100 + stmiv : ℕ) : ℚ) * cpm) ∧
          IPokemon.derive_targets [(1 : ℚ)] 100 100 100
              { PokemonRequest.mk (some ROLE_GYM_DEFENDER) none none (some 1) none none none
                  with role := some ROLE_PVE_ATTACKER } =
            .ok ⟨((100 + atkiv : ℕ) : ℚ) * cpm, ((100 + defiv : ℕ) : ℚ) * cpm,
              pyInt (((100 + stmiv : ℕ) : ℚ) * cpm)⟩) :=
  ⟨rfl, rfl, claim_C9 [(1 : ℚ)] 100 100 100
    (PokemonRequest.mk (some ROLE_GYM_DEFENDER) none none (some 1) none none none) rfl rfl⟩
open IPokemon in
/-- C10 (confirmed): whenever the request carries a tier key, the raid-boss
derivation applies regardless of the role field: attack (bAtk+15)*cpm and
defense (bDef+15)*cpm from the tier's multiplier constant and max health
from the tier's fixed maxHP, with any cp, level and IV fields ignored (the
right-hand side depends on none of them). -/
theorem claim_C10 (CPMultipliers : List ℚ) (bAtk bDef bStm : ℕ)
    (req : PokemonRequest) (tname : String) (htier : req.tier = some tname) :
    derive_targets CPMultipliers bAtk bDef bStm req =
      (match GameMaster.search_raid_tier tname with
       | .error e => Except.error e
       | .ok ts => Except.ok ⟨((bAtk + 15 : ℕ) : ℚ) * ts.cpm,
           ((bDef + 15 : ℕ) : ℚ) * ts.cpm, (ts.maxHP : ℤ)⟩) := by
  simp only [derive_targets, htier, Option.isSome_some, Bool.or_true, if_true]
/-- Witness for C10: a request with tier key "3" and a regular-attacker
role, explicit cp, level and IVs, all ignored by the raid rule. -/
theorem claim_C10_witness :
    (PokemonRequest.mk (some ROLE_PVE_ATTACKER) (some "3") (some 999) (some 5)
        (some 1) (some 2) (some 3)).tier = some "3" ∧
      IPokemon.derive_targets [] 100 90 80
          (PokemonRequest.mk (some ROLE_PVE_ATTACKER) (some "3") (some 999) (some 5)
            (some 1) (some 2) (some 3)) =
        (match GameMaster.search_raid_tier "3" with
         | .error e => Except.error e
         | .ok ts => Except.ok ⟨((100 + 15 : ℕ) : ℚ) * ts.cpm,
             ((90 + 15 : ℕ) : ℚ) * ts.cpm, (ts.maxHP : ℤ)⟩) :=
  ⟨rfl, claim_C10 [] 100 90 80
    (PokemonRequest.mk (some ROLE_PVE_ATTACKER) (some "3") (some 999) (some 5)
      (some 1) (some 2) (some 3)) "3" rfl⟩
